import Mathlib

/-!
# A verification of the redlog logger

This file gives a shallow embedding of the redlog package (`redlog.go`):
a Redis-compatible logger with a parent/child hierarchy, level threshold,
duplicate suppression, a pluggable filter, and two background relays.

Go strings are modelled as `List Char`; `()`-returning methods that write
to the sink are modelled as functions returning the written strings;
`time.Time` is modelled by its formatted components plus a monotonic
nanosecond reading used by the one-millisecond dedup window.
-/

namespace Redlog

/-- Go strings (byte strings, here at character granularity). -/
abbrev GoStr := List Char

/-- `unicode.IsSpace` restricted to the Latin-1 range, which is the only
range the logger's whitespace handling can meet on ASCII log content:
space, \t, \n, \v, \f, \r, NEL (U+0085) and NBSP (U+00A0). -/
def goIsSpace (c : Char) : Bool :=
  c = ' ' || c = '\t' || c = '\n' || c = '\x0b' || c = '\x0c' || c = '\r' ||
  c = '\x85' || c = '\xa0'

/-- Strip trailing `goIsSpace` characters (the right half of `strings.TrimSpace`). -/
def rstripList (l : GoStr) : GoStr :=
  (l.reverse.dropWhile goIsSpace).reverse

/-- `strings.TrimSpace`: strip leading and trailing whitespace. -/
def trimSpace (l : GoStr) : GoStr :=
  rstripList (l.dropWhile goIsSpace)

/-- Go declares `type logLevel int`; levels are modelled as `Int`. -/
def logLevelDebug : Int := 0
def logLevelVerbose : Int := 1
def logLevelNotice : Int := 2
def logLevelWarning : Int := 3

/-- The level's `String()` method: the glyph for each level, `?` outside
the range. -/
def logLevelString (level : Int) : GoStr :=
  if level = logLevelDebug then ['.']
  else if level = logLevelVerbose then ['-']
  else if level = logLevelNotice then ['*']
  else if level = logLevelWarning then ['#']
  else ['?']

/-- A `time.Time`, reduced to what the logger reads from it: the fields
rendered by the layout `"02 Jan 15:04:05.000"` and a monotonic reading
`mono` (nanoseconds) that `time.Time.Sub` measures for the dedup window. -/
structure GoTime where
  day : Nat
  month : Fin 12
  hour : Nat
  minute : Nat
  second : Nat
  milli : Nat
  mono : Int

/-- Three-letter month abbreviations used by Go's time layout `Jan`. -/
def monthNames : List GoStr :=
  [['J','a','n'], ['F','e','b'], ['M','a','r'], ['A','p','r'],
   ['M','a','y'], ['J','u','n'], ['J','u','l'], ['A','u','g'],
   ['S','e','p'], ['O','c','t'], ['N','o','v'], ['D','e','c']]

def monthName (m : Fin 12) : GoStr := monthNames.getD m.val []

/-- Go's zero-padded two-digit field (layouts `02`, `15`, `04`, `05`),
for the in-range values a `time.Time` produces. -/
def pad2 (n : Nat) : GoStr :=
  [Nat.digitChar (n / 10 % 10), Nat.digitChar (n % 10)]

/-- Go's zero-padded milliseconds field (layout `.000`). -/
def pad3 (n : Nat) : GoStr :=
  [Nat.digitChar (n / 100 % 10), Nat.digitChar (n / 10 % 10), Nat.digitChar (n % 10)]

/-- `now.Format("02 Jan 15:04:05.000")`. -/
def formatTime (t : GoTime) : GoStr :=
  pad2 t.day ++ ' ' :: (monthName t.month ++ ' ' :: (pad2 t.hour ++ ':' ::
    (pad2 t.minute ++ ':' :: (pad2 t.second ++ '.' :: pad3 t.milli))))

/-- `fmt` `%d` on the (nonnegative) pid: its decimal digits. -/
def pidChars (pid : Nat) : GoStr := Nat.toDigits 10 pid

/-- `fmt.Sprintf("%d:%c %s %s %s\n", l.pid, app, tm, level, msg)` in `logf`. -/
def renderLine (pid : Nat) (app : Char) (tm : GoStr) (level : Int) (msg : GoStr) : GoStr :=
  pidChars pid ++ ':' :: app :: ' ' :: (tm ++ ' ' ::
    (logLevelString level ++ ' ' :: (msg ++ ['\n'])))

/-- `strings.SplitN(s, " ", n)`: split around the first `n-1` spaces,
the last part keeps the remainder.  `n = 0` gives no parts, as in Go. -/
def splitNSpace : Nat → GoStr → List GoStr
  | 0, _ => []
  | 1, l => [l]
  | _ + 2, [] => [[]]
  | n + 2, c :: rest =>
    if c = ' ' then [] :: splitNSpace (n + 1) rest
    else
      match splitNSpace (n + 2) rest with
      | [] => [[c]]
      | a :: as => (c :: a) :: as
termination_by n l => (l.length, n)

/-- `strings.Split(s, " ")`: split around every space. -/
def splitSpace : GoStr → List GoStr
  | [] => [[]]
  | c :: rest =>
    if c = ' ' then [] :: splitSpace rest
    else
      match splitSpace rest with
      | [] => [[c]]
      | a :: as => (c :: a) :: as

/-- `strings.Join(parts, " ")`. -/
def joinSpace : List GoStr → GoStr
  | [] => []
  | [x] => x
  | x :: y :: xs => x ++ ' ' :: joinSpace (y :: xs)

/-- An ANSI escape `"\x1b[" + code + "m"`. -/
def ansiEsc (code : GoStr) : GoStr := '\x1b' :: '[' :: (code ++ ['m'])

/-- `"\x1b[0m"`. -/
def ansiReset : GoStr := ansiEsc ['0']

/-- The glyph-to-color switch shared by `Logger.write` and
`RedisLogColorizer` (`.` magenta, `-` none, `*` bold, `#` yellow). -/
def glyphColor (p : GoStr) : GoStr :=
  if p = ['.'] then ansiEsc ['3','5']
  else if p = ['-'] then []
  else if p = ['*'] then ansiEsc ['1']
  else if p = ['#'] then ansiEsc ['3','3']
  else []

/-- `Logger.write(msg)`: on a terminal, split into at most 6 fields,
wrap the 5th (the glyph) in its color, rejoin; then trim surrounding
whitespace and append the final newline.  Returns the exact string handed
to the sink.  (The `none` arm is unreachable for `logf`-produced lines;
Go would panic there.) -/
def writeGo (tty : Bool) (msg : GoStr) : GoStr :=
  let msg :=
    if tty then
      let parts := splitNSpace 6 msg
      match parts.get? 4 with
      | none => msg
      | some p4 =>
        let color := glyphColor p4
        if color = [] then msg
        else joinSpace (parts.set 4 (color ++ p4 ++ ansiReset))
    else msg
  trimSpace msg ++ ['\n']

/-- The mutable fields of a root `Logger` (`wr` is modelled at the call
sites; `mu` disappears in this sequential model).  `lastt = none` models
the zero `time.Time` (`IsZero`). -/
structure RootState where
  level : Int
  tty : Bool
  pid : Nat
  app : Char
  filter : Option (GoStr → Bool → GoStr × Char × Int)
  idups : Bool
  last : GoStr
  lastt : Option Int

/-- `New(wr)`: threshold Notice, app tag `M`, no filter, dups not ignored. -/
def newRoot (pid : Nat) (tty : Bool) : RootState :=
  { level := logLevelNotice, tty := tty, pid := pid, app := 'M',
    filter := none, idups := false, last := [], lastt := none }

/-- The logger hierarchy: a root holding all state, or a child holding
only its app tag and its parent. -/
inductive Logger where
  | root (st : RootState)
  | child (app : Char) (parent : Logger)

/-- `Sub(app)`. -/
def Logger.sub (l : Logger) (app : Char) : Logger := .child app l

/-- `l.app`: the node's own app tag. -/
def Logger.appTag : Logger → Char
  | .root st => st.app
  | .child a _ => a

/-- Resolve the hierarchy to its root state. -/
def Logger.rootState : Logger → RootState
  | .root st => st
  | .child _ p => p.rootState

/-- The clamp in `SetLevel`: out-of-range values are clamped into
`[Debug, Warning]`, never rejected. -/
def setLevelClamp (level : Int) : Int :=
  if level < logLevelDebug then logLevelDebug
  else if level > logLevelWarning then logLevelWarning
  else level

def RootState.setLevel (st : RootState) (level : Int) : RootState :=
  { st with level := setLevelClamp level }

/-- `SetLevel`, delegated from any child to the root; returns the root's
new state. -/
def Logger.setLevel : Logger → Int → RootState
  | .child _ p, level => p.setLevel level
  | .root st, level => st.setLevel level

/-- `SetIgnoreDups`, delegated to the root. -/
def Logger.setIgnoreDups : Logger → Bool → RootState
  | .child _ p, t => p.setIgnoreDups t
  | .root st, t => { st with idups := t }

/-- `doesAccept`: `level >= l.level` at the root. -/
def RootState.doesAccept (st : RootState) (level : Int) : Bool :=
  decide (level ≥ st.level)

/-- `l.last == msg && !l.lastt.IsZero() && now.Sub(l.lastt) < time.Millisecond`:
the duplicate test, comparing the raw message text (before any stripping)
and the time since the last recorded emission against the 1ms window
(1000000 ns). -/
def RootState.dupCheck (st : RootState) (msg : GoStr) (t : GoTime) : Bool :=
  decide (st.last = msg) &&
    (match st.lastt with
     | none => false
     | some tp => decide (t.mono - tp < 1000000))

/-- `l.last = msg; l.lastt = now`: the unconditional dedup-state refresh. -/
def RootState.bumpDedup (st : RootState) (msg : GoStr) (t : GoTime) : RootState :=
  { st with last := msg, lastt := some t.mono }

/-- The root branch of `logf` (redlog.go:158-181): threshold check,
timestamp, dedup bookkeeping, then `write`.  Returns the updated root
state and the string written to the sink (`none` when nothing is written). -/
def RootState.logf (st : RootState) (app : Char) (level : Int) (msg : GoStr)
    (t : GoTime) : RootState × Option GoStr :=
  if st.doesAccept level = false then (st, none)
  else
    let tm := formatTime t
    let step :=
      if st.idups then (st.dupCheck msg t, st.bumpDedup msg t)
      else (false, st)
    if step.1 then (step.2, none)
    else (step.2, some (writeGo step.2.tty (renderLine step.2.pid app tm level msg)))

/-- `Logger.logf`: a child delegates to its parent, passing `l.app` —
the *current* node's tag — in place of the incoming `app` argument,
exactly as the source does. -/
def Logger.logf : Logger → Char → Int → GoStr → GoTime → RootState × Option GoStr
  | .child a p, _, level, msg, t => p.logf a level msg t
  | .root st, app, level, msg, t => st.logf app level msg t

/-- `Noticef` (and `Printf`): emit at Notice with the node's own tag. -/
def Logger.noticef (l : Logger) (msg : GoStr) (t : GoTime) : RootState × Option GoStr :=
  l.logf l.appTag logLevelNotice msg t

/-- `iwrite(p, app)`: delegate to the root; with no filter installed,
forward the bytes unmodified to the sink and return its result; with a
filter, trim the bytes, run the filter (its returned app tag is dropped),
feed the result through `logf`, and return `(len(p), nil)`.
`sink` models `wr.Write`: the count and error the sink would answer.
Result: new root state, strings written to the sink, and the
`(int, error)` pair `iwrite` returns. -/
def Logger.iwrite : Logger → (GoStr → Nat × Option GoStr) → GoStr → Char → GoTime →
    RootState × List GoStr × Nat × Option GoStr
  | .child _ p, sink, bytes, app, t => p.iwrite sink bytes app t
  | .root st, sink, bytes, app, t =>
    match st.filter with
    | none => (st, [bytes], sink bytes)
    | some filter =>
      let fr := filter (trimSpace bytes) st.tty
      let r := st.logf app fr.2.2 fr.1 t
      (r.1, r.2.toList, bytes.length, none)

/-- `Logger.Write(p)`: `iwrite(p, l.app)`. -/
def Logger.write (l : Logger) (sink : GoStr → Nat × Option GoStr) (bytes : GoStr)
    (t : GoTime) : RootState × List GoStr × Nat × Option GoStr :=
  l.iwrite sink bytes l.appTag t

/-- `strings.IndexByte`: index of the first occurrence, `none` for Go's `-1`. -/
def indexByte (c : Char) : GoStr → Option Nat
  | [] => none
  | x :: rest =>
    if x = c then some 0
    else (indexByte c rest).map (· + 1)

/-- `strings.Replace(s, pat, rep, 1)`: replace the first occurrence only. -/
def replaceFirst : GoStr → GoStr → GoStr → GoStr
  | [], pat, rep => if pat.isPrefixOf ([] : GoStr) then rep else []
  | c :: t, pat, rep =>
    if pat.isPrefixOf (c :: t) then rep ++ (c :: t).drop pat.length
    else c :: replaceFirst t pat rep

/-- The severity switch on the letter inside the brackets
(`W`/`E` warning, `D` debug, `V` verbose, `I` notice, default verbose). -/
def letterLevel (c : Char) : Int :=
  if c = 'W' then logLevelWarning
  else if c = 'E' then logLevelWarning
  else if c = 'D' then logLevelDebug
  else if c = 'V' then logLevelVerbose
  else if c = 'I' then logLevelNotice
  else logLevelVerbose

/-- The tty role-marker colorization at the end of `HashicorpRaftFilter`. -/
def replaceRoles (msg : GoStr) : GoStr :=
  let msg := replaceFirst msg ('[' :: 'L' :: 'e' :: 'a' :: 'd' :: 'e' :: 'r' ::[']'])
    (ansiEsc ['3','2'] ++ ('[' :: 'L' :: 'e' :: 'a' :: 'd' :: 'e' :: 'r' ::[']']) ++ ansiReset)
  let msg := replaceFirst msg ('[' :: 'F' :: 'o' :: 'l' :: 'l' :: 'o' :: 'w' :: 'e' :: 'r' ::[']'])
    (ansiEsc ['3','3'] ++ ('[' :: 'F' :: 'o' :: 'l' :: 'l' :: 'o' :: 'w' :: 'e' :: 'r' ::[']']) ++ ansiReset)
  replaceFirst msg ('[' :: 'C' :: 'a' :: 'n' :: 'd' :: 'i' :: 'd' :: 'a' :: 't' :: 'e' ::[']'])
    (ansiEsc ['3','6'] ++ ('[' :: 'C' :: 'a' :: 'n' :: 'd' :: 'i' :: 'd' :: 'a' :: 't' :: 'e' ::[']']) ++ ansiReset)

/-- `HashicorpRaftFilter`: drop the leading token up to the first space
(if any); if the remainder starts with `[` and contains `]`, read the
severity from the letter after `[`, drop through the first `]` and any
following spaces; otherwise the named returns keep their zero values
(severity 0 = Debug, app tag NUL).  On a terminal the three role markers
are colorized in place, first occurrence only. -/
def afterToken (line : GoStr) : GoStr :=
  match indexByte ' ' line with
  | none => line
  | some idx => line.drop (idx + 1)

def hashicorpRaftFilter (line : GoStr) (tty : Bool) : GoStr × Char × Int :=
  let msg := afterToken line
  let step : GoStr × Int :=
    match indexByte ']' msg, msg with
    | some idx, c1 :: c2 :: _ =>
      if c1 = '[' then ((msg.drop (idx + 1)).dropWhile (· = ' '), letterLevel c2)
      else (msg, 0)
    | _, _ => (msg, 0)
  let msg := if tty then replaceRoles step.1 else step.1
  (msg, Char.ofNat 0, step.2)

/-- One observable step of a background relay loop: stop (the goroutine
returns), skip (`continue`: retry the read), or emit a string. -/
inductive RelayAction where
  | stop
  | skip
  | emit (msg : GoStr)
deriving DecidableEq

/-- The per-line transform inside `RedisLogColorizer`'s goroutine: split
on every space, and when there are more than 5 fields wrap the 5th in
its color and rejoin. -/
def colorizeRelayLine (line : GoStr) : GoStr :=
  let parts := splitSpace line
  if 5 < parts.length then
    match parts.get? 4 with
    | none => line
    | some p4 =>
      let color := glyphColor p4
      if color = [] then line
      else joinSpace (parts.set 4 (color ++ p4 ++ ansiReset))
  else line

/-- The body of `RedisLogColorizer`'s relay loop on one read result:
a read error `return`s (ends the loop); a line is colorized and written
to stdout. -/
def redisLogColorizerStep : Except GoStr GoStr → RelayAction
  | .error _ => .stop
  | .ok line => .emit (colorizeRelayLine line)

/-- The body of `GoLogger`'s relay loop on one read result: a read error
`continue`s (retries the read); a line is re-emitted, stripped of its
trailing newline, through `l.Printf`. -/
def goLoggerStep : Except GoStr GoStr → RelayAction
  | .error _ => .skip
  | .ok line => .emit line.dropLast

/-! ## Auxiliary definitions used by the statements and proofs -/

/-- Append `v` to the last part (the effect of `SplitN` on `u ++ v` when
all split points fall inside `u`). -/
def appendLast (v : GoStr) : List GoStr → List GoStr
  | [] => [v]
  | [x] => [x ++ v]
  | x :: y :: xs => x :: appendLast v (y :: xs)

/-- Everything `logf`'s line holds before the message: pid, app tag,
timestamp and glyph, each followed by its single-space separator. -/
def lineHead (pid : Nat) (app : Char) (tm : GoStr) (level : Int) : GoStr :=
  pidChars pid ++ ':' :: app :: ' ' :: (tm ++ ' ' :: (logLevelString level ++ [' ']))

/-- The field ranges a `time.Time` renders into the layout
`"02 Jan 15:04:05.000"`. -/
def GoTime.Valid (t : GoTime) : Prop :=
  1 ≤ t.day ∧ t.day ≤ 31 ∧ t.hour < 24 ∧ t.minute < 60 ∧ t.second < 60 ∧ t.milli < 1000

instance (t : GoTime) : Decidable t.Valid := by
  unfold GoTime.Valid
  infer_instance

/-- A regex word character `\w`. -/
def isWordChar (c : Char) : Bool := c.isAlphanum || c = '_'

/-- One position of an anchored character pattern: a literal, `\d` or `\w`. -/
inductive CharPat where
  | lit (c : Char)
  | digit
  | word

/-- Match a character pattern against the front of a string, returning
the remainder on success. -/
def matchPat : List CharPat → GoStr → Option GoStr
  | [], s => some s
  | _ :: _, [] => none
  | p :: ps, c :: cs =>
    match p with
    | .lit d => if c = d then matchPat ps cs else none
    | .digit => if c.isDigit then matchPat ps cs else none
    | .word => if isWordChar c then matchPat ps cs else none

/-- The pattern `100:M \d\d \w\w\w \d\d:\d\d:\d\d\.\d\d\d \* `. -/
def helloPat : List CharPat :=
  [.lit '1', .lit '0', .lit '0', .lit ':', .lit 'M', .lit ' ',
   .digit, .digit, .lit ' ', .word, .word, .word, .lit ' ',
   .digit, .digit, .lit ':', .digit, .digit, .lit ':', .digit, .digit,
   .lit '.', .digit, .digit, .digit, .lit ' ', .lit '*', .lit ' ']

/-- The anchored regex
`^100:M \d\d \w\w\w \d\d:\d\d:\d\d\.\d\d\d \* hello world$`
against the written line (whose last character is the terminator). -/
def matchesHelloLine (s : GoStr) : Bool :=
  decide (matchPat helloPat s =
    some ('h' :: 'e' :: 'l' :: 'l' :: 'o' :: ' ' :: 'w' :: 'o' :: 'r' :: 'l' :: 'd' :: '\n' ::[]))

/-- A sample time: 02 Jan 15:04:05.006, monotonic reading 0. -/
def t0 : GoTime := ⟨2, 0, 15, 4, 5, 6, 0⟩

/-- `t0` with a different monotonic reading (nanoseconds). -/
def t0At (mono : Int) : GoTime := ⟨2, 0, 15, 4, 5, 6, mono⟩

/-- A root logger with duplicate suppression armed and `x` recorded as
the last message at monotonic time 0. -/
def c2Root : Logger :=
  .root { newRoot 100 false with idups := true, last := ['x'], lastt := some 0 }

/-- A grandchild: `New(wr).Sub('A').Sub('B')`. -/
def c3Grandchild : Logger := ((Logger.root (newRoot 100 false)).sub 'A').sub 'B'

/-- A sink whose every write fails with `boom` after writing 0 bytes. -/
def c5Sink : GoStr → Nat × Option GoStr := fun _ => (0, some ("boom".toList))

/-- A root logger with the raft filter installed. -/
def c5Filtered : Logger :=
  .root { newRoot 100 false with filter := some hashicorpRaftFilter }

/-! ## Whitespace lemmas -/

lemma rstripList_append_space {x w : GoStr} (h : ∀ c ∈ w, goIsSpace c = true) :
    rstripList (x ++ w) = rstripList x := by
  unfold rstripList
  rw [List.reverse_append, List.dropWhile_append]
  have hw : w.reverse.dropWhile goIsSpace = [] := by
    rw [List.dropWhile_eq_nil_iff]
    intro c hc
    exact h c (List.mem_reverse.mp hc)
  simp [hw]

lemma rstripList_append_keep {x m : GoStr} (hm : m ≠ []) (h : rstripList m = m) :
    rstripList (x ++ m) = x ++ m := by
  have hrev : m.reverse.dropWhile goIsSpace = m.reverse := by
    have := congrArg List.reverse h
    rwa [rstripList, List.reverse_reverse] at this
  unfold rstripList
  rw [List.reverse_append, List.dropWhile_append, hrev]
  have hne : m.reverse.isEmpty = false := by
    simp [List.isEmpty_iff, hm]
  simp [hne]

lemma rstripList_nil : rstripList [] = [] := rfl

lemma exists_rstrip_decomp (l : GoStr) :
    ∃ w, l = rstripList l ++ w ∧ ∀ c ∈ w, goIsSpace c = true := by
  refine ⟨(l.reverse.takeWhile goIsSpace).reverse, ?_, ?_⟩
  · have := congrArg List.reverse (List.takeWhile_append_dropWhile goIsSpace l.reverse)
    rw [List.reverse_append, List.reverse_reverse] at this
    exact this.symm
  · intro c hc
    exact List.mem_takeWhile_imp (List.mem_reverse.mp hc)

lemma trimSpace_append_space {x w : GoStr} (h : ∀ c ∈ w, goIsSpace c = true) :
    trimSpace (x ++ w) = trimSpace x := by
  unfold trimSpace
  rw [List.dropWhile_append]
  cases hx : (x.dropWhile goIsSpace).isEmpty with
  | true =>
    have hw : w.dropWhile goIsSpace = [] := List.dropWhile_eq_nil_iff.mpr h
    simp [hx, hw, List.isEmpty_iff.mp hx]
  | false =>
    simp only [hx, Bool.false_eq_true, if_false]
    exact rstripList_append_space h

lemma trimSpace_congr_space {x w1 w2 : GoStr} (h1 : ∀ c ∈ w1, goIsSpace c = true)
    (h2 : ∀ c ∈ w2, goIsSpace c = true) :
    trimSpace (x ++ w1) = trimSpace (x ++ w2) := by
  rw [trimSpace_append_space h1, trimSpace_append_space h2]

lemma trimSpace_cons_of_head {c : Char} {l : GoStr} (h : goIsSpace c = false) :
    trimSpace (c :: l) = rstripList (c :: l) := by
  unfold trimSpace
  rw [List.dropWhile_cons, h]
  simp

/-! ## Decimal digits of the pid -/

lemma digitChar_isDigit {m : Nat} (h : m < 10) : (Nat.digitChar m).isDigit = true := by
  interval_cases m <;> decide

lemma toDigitsCore_digits10 (fuel : Nat) :
    ∀ (n : Nat) (ds : List Char), (∀ c ∈ ds, c.isDigit = true) →
      ∀ c ∈ Nat.toDigitsCore 10 fuel n ds, c.isDigit = true := by
  induction fuel with
  | zero => intro n ds h c hc; exact h c hc
  | succ fuel ih =>
    intro n ds h c hc
    have hd : ∀ x ∈ Nat.digitChar (n % 10) :: ds, x.isDigit = true := by
      intro x hx
      rcases List.mem_cons.mp hx with hx | hx
      · subst hx; exact digitChar_isDigit (Nat.mod_lt _ (by omega))
      · exact h x hx
    have heq : Nat.toDigitsCore 10 (fuel+1) n ds =
        (if n / 10 = 0 then Nat.digitChar (n % 10) :: ds
         else Nat.toDigitsCore 10 fuel (n / 10) (Nat.digitChar (n % 10) :: ds)) := rfl
    rw [heq] at hc
    by_cases h10 : n / 10 = 0
    · rw [if_pos h10] at hc
      exact hd c hc
    · rw [if_neg h10] at hc
      exact ih (n / 10) _ hd c hc

lemma toDigitsCore_ne_nil (fuel n : Nat) (ds : List Char) (h : ds ≠ []) :
    Nat.toDigitsCore 10 fuel n ds ≠ [] := by
  induction fuel generalizing n ds with
  | zero => exact h
  | succ fuel ih =>
    have heq : Nat.toDigitsCore 10 (fuel+1) n ds =
        (if n / 10 = 0 then Nat.digitChar (n % 10) :: ds
         else Nat.toDigitsCore 10 fuel (n / 10) (Nat.digitChar (n % 10) :: ds)) := rfl
    rw [heq]
    by_cases h10 : n / 10 = 0
    · simp [h10]
    · rw [if_neg h10]
      exact ih (n / 10) _ (by simp)

lemma pidChars_digits (pid : Nat) : ∀ c ∈ pidChars pid, c.isDigit = true := by
  intro c hc
  exact toDigitsCore_digits10 (pid + 1) pid [] (by simp) c hc

lemma pidChars_ne_nil (pid : Nat) : pidChars pid ≠ [] := by
  unfold pidChars Nat.toDigits
  by_cases h : pid / 10 = 0
  · have : Nat.toDigitsCore 10 (pid+1) pid [] =
        (if pid / 10 = 0 then Nat.digitChar (pid % 10) :: [] else
          Nat.toDigitsCore 10 pid (pid / 10) (Nat.digitChar (pid % 10) :: [])) := by
      cases pid <;> rfl
    rw [this, if_pos h]
    simp
  · have : Nat.toDigitsCore 10 (pid+1) pid [] =
        (if pid / 10 = 0 then Nat.digitChar (pid % 10) :: [] else
          Nat.toDigitsCore 10 pid (pid / 10) (Nat.digitChar (pid % 10) :: [])) := by
      cases pid <;> rfl
    rw [this, if_neg h]
    exact toDigitsCore_ne_nil pid (pid / 10) _ (by simp)

lemma goIsSpace_eq_false_of_isDigit {c : Char} (h : c.isDigit = true) :
    goIsSpace c = false := by
  have hne : ∀ d : Char, d.isDigit = false → c ≠ d := by
    intro d hd e
    rw [e, hd] at h
    exact absurd h (by simp)
  unfold goIsSpace
  simp only [Bool.or_eq_false_iff, decide_eq_false_iff_not]
  exact ⟨⟨⟨⟨⟨⟨⟨hne ' ' (by decide), hne '\t' (by decide)⟩, hne '\n' (by decide)⟩,
    hne '\x0b' (by decide)⟩, hne '\x0c' (by decide)⟩, hne '\r' (by decide)⟩,
    hne '\x85' (by decide)⟩, hne '\xa0' (by decide)⟩

/-! ## Split/join machinery for the colorizing branch of `write` -/

lemma appendLast_cons {v x} {xs : List GoStr} (h : xs ≠ []) :
    appendLast v (x :: xs) = x :: appendLast v xs := by
  cases xs with
  | nil => exact absurd rfl h
  | cons y ys => rfl

lemma length_appendLast (v : GoStr) (parts : List GoStr) (h : parts ≠ []) :
    (appendLast v parts).length = parts.length := by
  induction parts with
  | nil => exact absurd rfl h
  | cons x xs ih =>
    cases xs with
    | nil => rfl
    | cons y ys =>
      rw [appendLast_cons (by simp)]
      simp [ih (by simp)]

lemma appendLast_get? (v : GoStr) (parts : List GoStr) (i : Nat)
    (h : i + 1 < parts.length) : (appendLast v parts).get? i = parts.get? i := by
  induction parts generalizing i with
  | nil => simp at h
  | cons x xs ih =>
    cases xs with
    | nil => simp at h
    | cons y ys =>
      rw [appendLast_cons (by simp)]
      cases i with
      | zero => rfl
      | succ j =>
        simp only [List.get?_cons_succ]
        exact ih j (by simpa using h)

lemma appendLast_set (v : GoStr) (parts : List GoStr) (i : Nat) (x : GoStr)
    (h : i + 1 < parts.length) :
    appendLast v (parts.set i x) = (appendLast v parts).set i x := by
  induction parts generalizing i with
  | nil => simp at h
  | cons a as ih =>
    cases as with
    | nil => simp at h
    | cons b bs =>
      cases i with
      | zero =>
        rw [List.set_cons_zero, appendLast_cons (show (b :: bs) ≠ [] by simp),
          appendLast_cons (show (b :: bs) ≠ [] by simp), List.set_cons_zero]
      | succ j =>
        rw [List.set_cons_succ, appendLast_cons (by simp), appendLast_cons ?hne]
        case hne => intro e; rw [e] at h; simp at h
        rw [ih j (by simpa using h)]
        rfl

lemma joinSpace_appendLast (v : GoStr) (parts : List GoStr) (h : parts ≠ []) :
    joinSpace (appendLast v parts) = joinSpace parts ++ v := by
  induction parts with
  | nil => exact absurd rfl h
  | cons x xs ih =>
    cases xs with
    | nil => simp [appendLast, joinSpace]
    | cons y ys =>
      rw [appendLast_cons (by simp)]
      have hy : appendLast v (y :: ys) ≠ [] := by
        cases ys <;> simp [appendLast, appendLast_cons]
      obtain ⟨z, zs, hz⟩ : ∃ z zs, appendLast v (y :: ys) = z :: zs := by
        cases hzz : appendLast v (y :: ys) with
        | nil => exact absurd hzz hy
        | cons z zs => exact ⟨z, zs, rfl⟩
      rw [hz, joinSpace, ← hz, ih (by simp), joinSpace]
      simp

lemma splitNSpace_ne_nil (n : Nat) (l : GoStr) (h : 1 ≤ n) : splitNSpace n l ≠ [] := by
  induction l generalizing n with
  | nil =>
    match n, h with
    | 1, _ => simp [splitNSpace]
    | (m+2), _ => simp [splitNSpace]
  | cons c rest ih =>
    match n, h with
    | 1, _ => simp [splitNSpace]
    | (m+2), _ =>
      simp only [splitNSpace]
      by_cases hc : c = ' '
      · simp [hc]
      · rw [if_neg hc]
        cases hsp : splitNSpace (m+2) rest with
        | nil => simp
        | cons a as => simp

lemma splitNSpace_length (u : GoStr) : ∀ (n : Nat), 1 ≤ n → n - 1 ≤ u.count ' ' →
    (splitNSpace n u).length = n := by
  induction u with
  | nil =>
    intro n h1 hcnt
    match n, h1, hcnt with
    | 1, _, _ => simp [splitNSpace]
    | (m+2), _, hcnt => simp at hcnt
  | cons c rest ih =>
    intro n h1 hcnt
    match n, h1 with
    | 1, _ => simp [splitNSpace]
    | (m+2), _ =>
      simp only [splitNSpace]
      by_cases hc : c = ' '
      · rw [if_pos hc]
        have hcnt' : m ≤ rest.count ' ' := by
          rw [List.count_cons] at hcnt
          simp [hc] at hcnt
          omega
        simp [ih (m+1) (by omega) (by simpa using hcnt')]
      · rw [if_neg hc]
        have hcnt' : m + 1 ≤ rest.count ' ' := by
          rw [List.count_cons] at hcnt
          have : (c == ' ') = false := by simp [hc]
          simp [this] at hcnt
          omega
        have hlen := ih (m+2) (by omega) (by simpa using hcnt')
        cases hsp : splitNSpace (m+2) rest with
        | nil => exact absurd hsp (splitNSpace_ne_nil (m+2) rest (by omega))
        | cons a as =>
          rw [hsp] at hlen
          simpa using hlen

lemma splitNSpace_append (v : GoStr) (u : GoStr) : ∀ (n : Nat), 1 ≤ n →
    n - 1 ≤ u.count ' ' →
    splitNSpace n (u ++ v) = appendLast v (splitNSpace n u) := by
  induction u with
  | nil =>
    intro n h1 hcnt
    match n, h1, hcnt with
    | 1, _, _ => simp [splitNSpace, appendLast]
    | (m+2), _, hcnt => simp at hcnt
  | cons c rest ih =>
    intro n h1 hcnt
    match n, h1 with
    | 1, _ => simp [splitNSpace, appendLast]
    | (m+2), _ =>
      rw [List.cons_append]
      simp only [splitNSpace]
      by_cases hc : c = ' '
      · rw [if_pos hc, if_pos hc]
        have hcnt' : m ≤ rest.count ' ' := by
          rw [List.count_cons] at hcnt
          simp [hc] at hcnt
          omega
        rw [ih (m+1) (by omega) (by simpa using hcnt')]
        rw [appendLast_cons (splitNSpace_ne_nil (m+1) rest (by omega))]
      · rw [if_neg hc, if_neg hc]
        have hcnt' : m + 1 ≤ rest.count ' ' := by
          rw [List.count_cons] at hcnt
          have : (c == ' ') = false := by simp [hc]
          simp [this] at hcnt
          omega
        have hih := ih (m+2) (by omega) (by simpa using hcnt')
        cases hsp : splitNSpace (m+2) rest with
        | nil => exact absurd hsp (splitNSpace_ne_nil (m+2) rest (by omega))
        | cons b bs =>
          rw [hsp] at hih
          rw [hih]
          cases bs with
          | nil => simp [appendLast]
          | cons b2 bs2 =>
            have e1 : appendLast v (b :: b2 :: bs2) = b :: appendLast v (b2 :: bs2) :=
              appendLast_cons (by simp)
            have e2 : appendLast v ((c :: b) :: b2 :: bs2) =
                (c :: b) :: appendLast v (b2 :: bs2) :=
              appendLast_cons (by simp)
            rw [e1, e2]

/-! ## The emitted line -/

lemma renderLine_eq (pid : Nat) (app : Char) (tm : GoStr) (level : Int)
    (msg : GoStr) :
    renderLine pid app tm level msg = lineHead pid app tm level ++ (msg ++ ['\n']) := by
  simp [renderLine, lineHead]

lemma count_lineHead (pid : Nat) (app : Char) (t : GoTime) (level : Int) :
    5 ≤ (lineHead pid app (formatTime t) level).count ' ' := by
  cases happ : (app == ' ') <;>
    simp [lineHead, formatTime, List.count_append, List.count_cons, happ] <;>
    omega

lemma writeGo_false (l : GoStr) : writeGo false l = trimSpace l ++ ['\n'] := rfl

/-- Two lines sharing a head `u` that already holds all five split points,
whose tails differ only in trailing whitespace, are written identically —
for a plain sink and through the colorizing branch alike. -/
lemma writeGo_tail_congr {u : GoStr} (tty : Bool) (m w1 w2 : GoStr)
    (hu : 5 ≤ u.count ' ')
    (h1 : ∀ c ∈ w1, goIsSpace c = true) (h2 : ∀ c ∈ w2, goIsSpace c = true) :
    writeGo tty (u ++ (m ++ w1)) = writeGo tty (u ++ (m ++ w2)) := by
  cases tty with
  | false =>
    rw [writeGo_false, writeGo_false, ← List.append_assoc, ← List.append_assoc,
      trimSpace_congr_space h1 h2]
  | true =>
    have hlen : (splitNSpace 6 u).length = 6 :=
      splitNSpace_length u 6 (by omega) (by simpa using hu)
    have hsp1 : splitNSpace 6 (u ++ (m ++ w1)) = appendLast (m ++ w1) (splitNSpace 6 u) :=
      splitNSpace_append _ u 6 (by omega) (by simpa using hu)
    have hsp2 : splitNSpace 6 (u ++ (m ++ w2)) = appendLast (m ++ w2) (splitNSpace 6 u) :=
      splitNSpace_append _ u 6 (by omega) (by simpa using hu)
    cases hp4 : (splitNSpace 6 u).get? 4 with
    | none =>
      rw [List.get?_eq_getElem?, List.getElem?_eq_none_iff, hlen] at hp4
      omega
    | some p4 =>
      have hget1 : (appendLast (m ++ w1) (splitNSpace 6 u)).get? 4 = some p4 := by
        rw [appendLast_get? _ _ 4 (by omega)]
        exact hp4
      have hget2 : (appendLast (m ++ w2) (splitNSpace 6 u)).get? 4 = some p4 := by
        rw [appendLast_get? _ _ 4 (by omega)]
        exact hp4
      simp only [writeGo, if_true, hsp1, hsp2, hget1, hget2]
      by_cases hcol : glyphColor p4 = []
      · rw [if_pos hcol, if_pos hcol, ← List.append_assoc, ← List.append_assoc,
          trimSpace_congr_space h1 h2]
      · have hsetne : ∀ x : GoStr, (splitNSpace 6 u).set 4 x ≠ [] := by
          intro x e
          have := congrArg List.length e
          rw [List.length_set, hlen] at this
          simp at this
        rw [if_neg hcol, if_neg hcol,
          ← appendLast_set _ _ 4 _ (by omega), ← appendLast_set _ _ 4 _ (by omega),
          joinSpace_appendLast _ _ (hsetne _), joinSpace_appendLast _ _ (hsetne _),
          ← List.append_assoc, ← List.append_assoc, trimSpace_congr_space h1 h2]

/-- On a non-terminal sink the written line is exactly the prefix, the
message with stripping already applied, and one newline. -/
lemma writeGo_false_renderLine (pid : Nat) (app : Char) (tm : GoStr)
    (level : Int) (msg : GoStr) (hmsg : rstripList msg = msg) (hne : msg ≠ []) :
    writeGo false (renderLine pid app tm level msg) =
      lineHead pid app tm level ++ msg ++ ['\n'] := by
  rw [writeGo_false, renderLine_eq]
  obtain ⟨d, ds, hpc⟩ : ∃ d ds, pidChars pid = d :: ds := by
    cases hpc : pidChars pid with
    | nil => exact absurd hpc (pidChars_ne_nil pid)
    | cons d ds => exact ⟨d, ds, rfl⟩
  have hd : goIsSpace d = false := by
    refine goIsSpace_eq_false_of_isDigit (pidChars_digits pid d ?_)
    rw [hpc]
    simp
  have hshape : lineHead pid app tm level ++ (msg ++ ['\n']) =
      d :: (ds ++ ':' :: app :: ' ' :: (tm ++ ' ' :: (logLevelString level ++ [' ']))
        ++ (msg ++ ['\n'])) := by
    simp [lineHead, hpc]
  rw [trimSpace, hshape, List.dropWhile_cons, hd]
  simp only [Bool.false_eq_true, if_false]
  rw [← hshape, ← List.append_assoc, rstripList_append_space (by intro c hc; simp at hc; subst hc; rfl),
    rstripList_append_keep hne hmsg, List.append_assoc]

/-! ## Branch lemmas for `logf` -/

lemma logf_not_accepted {st : RootState} {app level msg t}
    (h : st.doesAccept level = false) :
    st.logf app level msg t = (st, none) := by
  simp [RootState.logf, h]

lemma logf_accepted_nodups {st : RootState} {app level msg t}
    (hacc : st.doesAccept level = true) (hdups : st.idups = false) :
    st.logf app level msg t =
      (st, some (writeGo st.tty (renderLine st.pid app (formatTime t) level msg))) := by
  simp [RootState.logf, hacc, hdups]

lemma logf_accepted_idups {st : RootState} {app level msg t}
    (hacc : st.doesAccept level = true) (hdups : st.idups = true) :
    st.logf app level msg t =
      (if st.dupCheck msg t then (st.bumpDedup msg t, none)
       else (st.bumpDedup msg t,
         some (writeGo st.tty (renderLine st.pid app (formatTime t) level msg)))) := by
  by_cases hdup : st.dupCheck msg t
  · simp [RootState.logf, hacc, hdups, hdup]
  · simp [RootState.logf, hacc, hdups, hdup, RootState.bumpDedup]

lemma bumpDedup_tty (st : RootState) (msg : GoStr) (t : GoTime) :
    (st.bumpDedup msg t).tty = st.tty := rfl

lemma bumpDedup_doesAccept (st : RootState) (msg : GoStr) (t : GoTime) (level : Int) :
    (st.bumpDedup msg t).doesAccept level = st.doesAccept level := rfl

lemma digitChar_mod10_isDigit (k : Nat) : (Nat.digitChar (k % 10)).isDigit = true :=
  digitChar_isDigit (Nat.mod_lt _ (by omega))

/-! ## The claims -/

/-- C1: an emission accepted by the threshold and not suppressed as a
duplicate writes exactly one line `<pid>:<app> <tm> <glyph> <message>`
terminated by a single newline, with single-space separators (first
conjunct: on a non-terminal sink, for a message whose trailing whitespace
is already stripped, the sink receives exactly
`lineHead ++ message ++ newline`); the glyphs are `.`, `-`, `*`, `#`
for Debug, Verbose, Notice, Warning (middle conjuncts); and in particular
for app tag `M`, pid 100 and message `hello world` at Notice on a
non-terminal sink the line matches
`^100:M \d\d \w\w\w \d\d:\d\d:\d\d\.\d\d\d \* hello world$`
(last conjunct). -/
theorem C1_line_format :
    (∀ (st : RootState) (app : Char) (level : Int) (msg : GoStr) (t : GoTime),
      st.tty = false → st.doesAccept level = true →
      (st.idups = true → st.dupCheck msg t = false) →
      rstripList msg = msg → msg ≠ [] →
      (st.logf app level msg t).2 =
        some (lineHead st.pid app (formatTime t) level ++ msg ++ ['\n'])) ∧
    logLevelString logLevelDebug = ['.'] ∧
    logLevelString logLevelVerbose = ['-'] ∧
    logLevelString logLevelNotice = ['*'] ∧
    logLevelString logLevelWarning = ['#'] ∧
    (∀ t : GoTime, t.Valid →
      matchesHelloLine (((newRoot 100 false).logf 'M' logLevelNotice
        ('h' :: 'e' :: 'l' :: 'l' :: 'o' :: ' ' :: 'w' :: 'o' :: 'r' :: 'l' :: 'd' ::[]) t).2.getD []) = true) := by
  refine ⟨?_, by decide, by decide, by decide, by decide, ?_⟩
  · intro st app level msg t htty hacc hnod hstrip hne
    by_cases hdups : st.idups
    · rw [logf_accepted_idups hacc hdups, if_neg (by simp [hnod hdups])]
      show some (writeGo st.tty (renderLine st.pid app (formatTime t) level msg)) = _
      rw [htty, writeGo_false_renderLine _ _ _ _ _ hstrip hne]
    · rw [logf_accepted_nodups hacc (by simpa using hdups)]
      show some (writeGo st.tty (renderLine st.pid app (formatTime t) level msg)) = _
      rw [htty, writeGo_false_renderLine _ _ _ _ _ hstrip hne]
  · intro t hval
    obtain ⟨da, mo, ho, mi, se, ms, mn⟩ := t
    have hacc : (newRoot 100 false).doesAccept logLevelNotice = true := by decide
    rw [logf_accepted_nodups hacc rfl]
    show matchesHelloLine (writeGo (newRoot 100 false).tty _) = true
    rw [show (newRoot 100 false).tty = false from rfl,
      writeGo_false_renderLine _ _ _ _ _ (by decide) (by decide)]
    have hp : pidChars 100 = '1' :: '0' :: '0' ::[] := by decide
    simp only [lineHead, hp, show (newRoot 100 false).pid = 100 from rfl]
    fin_cases mo <;>
      simp [formatTime, pad2, pad3, monthName, monthNames, logLevelString,
        logLevelNotice, matchesHelloLine, matchPat, helloPat, isWordChar,
        digitChar_mod10_isDigit]

/-- Witness for C1: both conjunct families instantiated at `t0`. -/
theorem C1_line_format_witness :
    ((newRoot 7 false).logf 'M' logLevelWarning ('h' :: 'i' ::[]) t0).2 =
      some (lineHead 7 'M' (formatTime t0) logLevelWarning ++ ('h' :: 'i' ::[]) ++ ['\n']) ∧
    matchesHelloLine (((newRoot 100 false).logf 'M' logLevelNotice
      ('h' :: 'e' :: 'l' :: 'l' :: 'o' :: ' ' :: 'w' :: 'o' :: 'r' :: 'l' :: 'd' ::[]) t0).2.getD []) = true := by
  exact ⟨C1_line_format.1 (newRoot 7 false) 'M' logLevelWarning ('h' :: 'i' ::[]) t0 rfl
      (by decide) (by decide) (by decide) (by decide),
    C1_line_format.2.2.2.2.2 t0 (by decide)⟩

/-- C9: trailing whitespace (any combination of space, tab, CR, LF, any
length) is fully stripped from the message before the line is emitted —
on plain and terminal sinks alike the written bytes for `msg ++ ws` equal
those for `msg` (first conjunct) — while the message's leading and
interior whitespace is preserved verbatim in the output line (second
conjunct: for a message with no trailing whitespace, the line embeds the
message unchanged between the glyph separator and the newline). -/
theorem C9_trailing_whitespace :
    (∀ (tty : Bool) (pid : Nat) (app : Char) (level : Int) (t : GoTime)
      (msg ws : GoStr),
      (∀ c ∈ ws, c = ' ' ∨ c = '\t' ∨ c = '\r' ∨ c = '\n') →
      writeGo tty (renderLine pid app (formatTime t) level (msg ++ ws)) =
        writeGo tty (renderLine pid app (formatTime t) level msg)) ∧
    (∀ (pid : Nat) (app : Char) (level : Int) (t : GoTime) (msg : GoStr),
      rstripList msg = msg → msg ≠ [] →
      writeGo false (renderLine pid app (formatTime t) level msg) =
        lineHead pid app (formatTime t) level ++ msg ++ ['\n']) := by
  constructor
  · intro tty pid app level t msg ws hws
    rw [renderLine_eq, renderLine_eq]
    have h1 : ∀ c ∈ ws ++ ['\n'], goIsSpace c = true := by
      intro c hc
      rcases List.mem_append.mp hc with hc | hc
      · rcases hws c hc with rfl | rfl | rfl | rfl <;> rfl
      · simp at hc; subst hc; rfl
    have h2 : ∀ c ∈ ['\n'], goIsSpace c = true := by
      intro c hc; simp at hc; subst hc; rfl
    have hcg := writeGo_tail_congr tty msg (ws ++ ['\n']) ['\n']
      (count_lineHead pid app t level) h1 h2
    simpa [List.append_assoc] using hcg
  · intro pid app level t msg h1 h2
    exact writeGo_false_renderLine pid app (formatTime t) level msg h1 h2

/-- Witness for C9 at a concrete message and whitespace suffix. -/
theorem C9_trailing_whitespace_witness :
    writeGo false (renderLine 9 'M' (formatTime t0) logLevelNotice
        (('h' :: 'i' ::[]) ++ (' ' :: '\t' ::[]))) =
      writeGo false (renderLine 9 'M' (formatTime t0) logLevelNotice ('h' :: 'i' ::[])) ∧
    writeGo false (renderLine 9 'M' (formatTime t0) logLevelNotice ('h' :: 'i' ::[])) =
      lineHead 9 'M' (formatTime t0) logLevelNotice ++ ('h' :: 'i' ::[]) ++ ['\n'] := by
  exact ⟨C9_trailing_whitespace.1 false 9 'M' logLevelNotice t0 ('h' :: 'i' ::[])
      (' ' :: '\t' ::[]) (by decide),
    C9_trailing_whitespace.2 9 'M' logLevelNotice t0 ('h' :: 'i' ::[]) (by decide) (by decide)⟩

lemma setLevelClamp_spec (n : Int) :
    logLevelDebug ≤ setLevelClamp n ∧ setLevelClamp n ≤ logLevelWarning ∧
    (logLevelDebug ≤ n → n ≤ logLevelWarning → setLevelClamp n = n) := by
  by_cases c1 : n < logLevelDebug
  · simp only [setLevelClamp, if_pos c1]
    unfold logLevelDebug logLevelWarning at *
    exact ⟨by omega, by omega, fun h1 h2 => by omega⟩
  · simp only [setLevelClamp, if_neg c1]
    by_cases c2 : n > logLevelWarning
    · simp only [if_pos c2]
      unfold logLevelDebug logLevelWarning at *
      exact ⟨by omega, by omega, fun h1 h2 => by omega⟩
    · simp only [if_neg c2]
      unfold logLevelDebug logLevelWarning at *
      exact ⟨by omega, by omega, fun h1 h2 => by trivial⟩

lemma setLevel_rootState (l : Logger) (n : Int) :
    Logger.setLevel l n = { l.rootState with level := setLevelClamp n } := by
  induction l with
  | root st => rfl
  | child a p ih => simpa [Logger.setLevel, Logger.rootState] using ih

/-- C2 counterexample: on a root with duplicate suppression armed and
`x` freshly recorded, `SetLevel 2` clamps/sets the threshold to 2, yet
the next emission at severity 3 ≥ 2 produces no observable output (it is
dropped as a duplicate), refuting "output iff severity ≥ threshold". -/
theorem C2_counterexample :
    (Logger.setLevel c2Root 2).level = 2 ∧
    (Logger.setLevel c2Root 2).doesAccept 3 = true ∧
    ((Logger.setLevel c2Root 2).logf 'M' 3 ['x'] (t0At 500000)).2 = none := by decide

/-- C2 (amended): `SetLevel(n)`, on the root or any child, replaces the
root's threshold by `n` clamped into `[Debug, Warning]` and changes
nothing else, never failing (first conjunct and the clamp bounds);
thereafter an emission below the clamped threshold produces no output
and no state change, an emission at or above it produces output provided
it is not dropped by duplicate suppression (in particular whenever
duplicate suppression is disabled), and any emission that does produce
output is at or above the threshold. -/
theorem C2_amended :
    ∀ (l : Logger) (n : Int),
      Logger.setLevel l n = { l.rootState with level := setLevelClamp n } ∧
      logLevelDebug ≤ setLevelClamp n ∧ setLevelClamp n ≤ logLevelWarning ∧
      (logLevelDebug ≤ n → n ≤ logLevelWarning → setLevelClamp n = n) ∧
      (∀ (app : Char) (level : Int) (msg : GoStr) (t : GoTime),
        (level < setLevelClamp n →
          (Logger.setLevel l n).logf app level msg t = (Logger.setLevel l n, none)) ∧
        (l.rootState.idups = false → setLevelClamp n ≤ level →
          ((Logger.setLevel l n).logf app level msg t).2.isSome = true) ∧
        (((Logger.setLevel l n).logf app level msg t).2.isSome = true →
          setLevelClamp n ≤ level)) := by
  intro l n
  obtain ⟨hlo, hhi, hid⟩ := setLevelClamp_spec n
  refine ⟨setLevel_rootState l n, hlo, hhi, hid, ?_⟩
  intro app level msg t
  have hlev : (Logger.setLevel l n).level = setLevelClamp n := by
    rw [setLevel_rootState l n]
  refine ⟨?_, ?_, ?_⟩
  · intro hbelow
    refine logf_not_accepted ?_
    simp only [RootState.doesAccept, hlev, decide_eq_false_iff_not]
    omega
  · intro hdups habove
    have hacc : (Logger.setLevel l n).doesAccept level = true := by
      simp only [RootState.doesAccept, hlev, decide_eq_true_eq]
      omega
    have hdups2 : (Logger.setLevel l n).idups = false := by
      rw [setLevel_rootState l n]
      exact hdups
    by_cases hdup : (Logger.setLevel l n).idups
    · rw [hdup] at hdups2; simp at hdups2
    · rw [logf_accepted_nodups hacc (by simpa using hdup)]
      rfl
  · intro hsome
    by_contra hnot
    rw [logf_not_accepted ?hna] at hsome
    · simp at hsome
    case hna =>
      simp only [RootState.doesAccept, hlev, decide_eq_false_iff_not]
      omega

/-- Witness for C2 (amended): instantiated on a child of a fresh root
with an out-of-range level. -/
theorem C2_amended_witness :
    Logger.setLevel ((Logger.root (newRoot 42 false)).sub 'S') 9 =
      { (Logger.root (newRoot 42 false)).sub 'S' |>.rootState with level := setLevelClamp 9 } ∧
    ((Logger.setLevel ((Logger.root (newRoot 42 false)).sub 'S') 9).logf 'S' 1 ['m'] t0 =
      (Logger.setLevel ((Logger.root (newRoot 42 false)).sub 'S') 9, none)) ∧
    ((Logger.setLevel ((Logger.root (newRoot 42 false)).sub 'S') 9).logf 'S' 3 ['m'] t0).2.isSome
      = true := by
  have h := C2_amended ((Logger.root (newRoot 42 false)).sub 'S') 9
  refine ⟨h.1, ?_, ?_⟩
  · exact (h.2.2.2.2 'S' 1 ['m'] t0).1 (by decide)
  · exact (h.2.2.2.2 'S' 3 ['m'] t0).2.1 (by decide) (by decide)

lemma bumpDedup_last (st : RootState) (msg : GoStr) (t : GoTime) :
    (st.bumpDedup msg t).last = msg := rfl

lemma bumpDedup_lastt (st : RootState) (msg : GoStr) (t : GoTime) :
    (st.bumpDedup msg t).lastt = some t.mono := rfl

lemma bumpDedup_idups (st : RootState) (msg : GoStr) (t : GoTime) :
    (st.bumpDedup msg t).idups = st.idups := rfl

/-- C4: with duplicate suppression enabled, an accepted emission is
dropped iff its message equals the stored last message and the elapsed
monotonic time since the last recorded emission is under the 1ms window
(1000000 ns); dropped or not, the stored message and timestamp are
overwritten with the current ones (first block); hence two identical
back-to-back accepted emissions from a fresh dedup state write exactly
one line, while the same two emissions separated by at least the window
write two (second block). -/
theorem C4_dedup_suppression :
    (∀ (st : RootState) (app : Char) (level : Int) (msg : GoStr) (t : GoTime) (tp : Int),
      st.idups = true → st.lastt = some tp → st.doesAccept level = true →
      (((st.logf app level msg t).2 = none) ↔ (st.last = msg ∧ t.mono - tp < 1000000)) ∧
      (st.logf app level msg t).1.last = msg ∧
      (st.logf app level msg t).1.lastt = some t.mono) ∧
    (∀ (st : RootState) (app : Char) (level : Int) (msg : GoStr) (t1 t2 : GoTime),
      st.idups = true → st.lastt = none → st.doesAccept level = true →
      ((st.logf app level msg t1).2.isSome = true) ∧
      (t2.mono - t1.mono < 1000000 →
        ((st.logf app level msg t1).1.logf app level msg t2).2 = none) ∧
      (1000000 ≤ t2.mono - t1.mono →
        (((st.logf app level msg t1).1.logf app level msg t2).2.isSome = true))) := by
  constructor
  · intro st app level msg t tp hdups hlastt hacc
    rw [logf_accepted_idups hacc hdups]
    by_cases hdup : st.dupCheck msg t = true
    · rw [if_pos hdup]
      simp only [RootState.dupCheck, hlastt, Bool.and_eq_true, decide_eq_true_eq] at hdup
      exact ⟨by simpa using hdup, rfl, rfl⟩
    · rw [if_neg hdup]
      simp only [RootState.dupCheck, hlastt, Bool.and_eq_true, decide_eq_true_eq] at hdup
      refine ⟨?_, rfl, rfl⟩
      constructor
      · intro h; simp at h
      · intro h; exact absurd h hdup
  · intro st app level msg t1 t2 hdups hlastt hacc
    have hdup1 : st.dupCheck msg t1 = false := by
      simp [RootState.dupCheck, hlastt]
    rw [logf_accepted_idups hacc hdups, if_neg (by simp [hdup1])]
    refine ⟨rfl, ?_, ?_⟩
    · intro hwin
      have hacc2 : (st.bumpDedup msg t1).doesAccept level = true := hacc
      have hdups2 : (st.bumpDedup msg t1).idups = true := hdups
      rw [logf_accepted_idups hacc2 hdups2, if_pos ?hd]
      case hd => simp [RootState.dupCheck, RootState.bumpDedup, hwin]
    · intro hwin
      have hacc2 : (st.bumpDedup msg t1).doesAccept level = true := hacc
      have hdups2 : (st.bumpDedup msg t1).idups = true := hdups
      rw [logf_accepted_idups hacc2 hdups2, if_neg ?hd]
      · rfl
      case hd => simp [RootState.dupCheck, RootState.bumpDedup]; omega

/-- Witness for C4 at concrete states and times. -/
theorem C4_dedup_suppression_witness :
    ((((Logger.rootState c2Root).logf 'M' 2 ['x'] (t0At 500000)).2 = none) ↔
      ((Logger.rootState c2Root).last = ['x'] ∧ (t0At 500000).mono - 0 < 1000000)) ∧
    (((newRoot 3 false |>.setLevel 2).logf 'M' 2 ['y']
        (t0At 0)).2.isSome = true → True) ∧
    ((({ newRoot 3 false with idups := true }).logf 'M' 2 ['y'] (t0At 0)).1.logf
        'M' 2 ['y'] (t0At 900000)).2 = none ∧
    ((({ newRoot 3 false with idups := true }).logf 'M' 2 ['y'] (t0At 0)).1.logf
        'M' 2 ['y'] (t0At 1200000)).2.isSome = true := by
  refine ⟨?_, fun _ => trivial, ?_, ?_⟩
  · exact (C4_dedup_suppression.1 (Logger.rootState c2Root) 'M' 2 ['x'] (t0At 500000) 0
      (by decide) (by decide) (by decide)).1
  · exact (C4_dedup_suppression.2 { newRoot 3 false with idups := true } 'M' 2 ['y']
      (t0At 0) (t0At 900000) (by decide) (by decide) (by decide)).2.1 (by decide)
  · exact (C4_dedup_suppression.2 { newRoot 3 false with idups := true } 'M' 2 ['y']
      (t0At 0) (t0At 1200000) (by decide) (by decide) (by decide)).2.2 (by decide)

/-- C10: the duplicate comparison sees the message before trailing
whitespace is stripped (stripping happens on the composed line at write
time), so two consecutive accepted emissions whose messages differ only
in trailing whitespace are both written — the second is not suppressed —
even though the two written lines are byte-for-byte identical (equal
timestamps assumed for the rendered fields). -/
theorem C10_dedup_unstripped :
    ∀ (st : RootState) (app : Char) (level : Int) (m1 m2 : GoStr) (t1 t2 : GoTime),
      st.idups = true → st.doesAccept level = true → st.lastt = none →
      m1 ≠ m2 → rstripList m1 = rstripList m2 →
      formatTime t1 = formatTime t2 →
      ((st.logf app level m1 t1).2.isSome = true) ∧
      (((st.logf app level m1 t1).1.logf app level m2 t2).2.isSome = true) ∧
      (st.logf app level m1 t1).2 = ((st.logf app level m1 t1).1.logf app level m2 t2).2 := by
  intro st app level m1 m2 t1 t2 hdups hacc hlastt hne hre hfmt
  have hdup1 : st.dupCheck m1 t1 = false := by
    simp [RootState.dupCheck, hlastt]
  rw [logf_accepted_idups hacc hdups, if_neg (by simp [hdup1])]
  have hacc2 : (st.bumpDedup m1 t1).doesAccept level = true := hacc
  have hdups2 : (st.bumpDedup m1 t1).idups = true := hdups
  have hdup2 : (st.bumpDedup m1 t1).dupCheck m2 t2 = false := by
    simp [RootState.dupCheck, RootState.bumpDedup]
    intro h
    exact absurd h hne
  rw [logf_accepted_idups hacc2 hdups2, if_neg (by simp [hdup2])]
  refine ⟨rfl, rfl, ?_⟩
  show some _ = some _
  obtain ⟨w1, hw1, hsp1⟩ := exists_rstrip_decomp m1
  obtain ⟨w2, hw2, hsp2⟩ := exists_rstrip_decomp m2
  rw [← hre] at hw2
  have hcg := writeGo_tail_congr st.tty (rstripList m1) (w1 ++ ['\n']) (w2 ++ ['\n'])
    (count_lineHead st.pid app t1 level)
    (by intro c hc
        rcases List.mem_append.mp hc with hc | hc
        · exact hsp1 c hc
        · simp at hc; subst hc; rfl)
    (by intro c hc
        rcases List.mem_append.mp hc with hc | hc
        · exact hsp2 c hc
        · simp at hc; subst hc; rfl)
  show some (writeGo (st.bumpDedup m1 t1).tty
      (renderLine (st.bumpDedup m1 t1).pid app (formatTime t1) level m1)) =
    some (writeGo ((st.bumpDedup m1 t1).bumpDedup m2 t2).tty
      (renderLine ((st.bumpDedup m1 t1).bumpDedup m2 t2).pid app (formatTime t2) level m2))
  rw [show ((st.bumpDedup m1 t1).bumpDedup m2 t2).tty = st.tty from rfl,
    show ((st.bumpDedup m1 t1).bumpDedup m2 t2).pid = st.pid from rfl,
    show (st.bumpDedup m1 t1).tty = st.tty from rfl,
    show (st.bumpDedup m1 t1).pid = st.pid from rfl, ← hfmt]
  rw [renderLine_eq, renderLine_eq]
  have h1 : lineHead st.pid app (formatTime t1) level ++ (m1 ++ ['\n']) =
      lineHead st.pid app (formatTime t1) level ++ (rstripList m1 ++ (w1 ++ ['\n'])) := by
    rw [show m1 ++ ['\n'] = rstripList m1 ++ (w1 ++ ['\n']) by
      rw [← List.append_assoc, ← hw1]]
  have h2 : lineHead st.pid app (formatTime t1) level ++ (m2 ++ ['\n']) =
      lineHead st.pid app (formatTime t1) level ++ (rstripList m1 ++ (w2 ++ ['\n'])) := by
    rw [show m2 ++ ['\n'] = rstripList m1 ++ (w2 ++ ['\n']) by
      rw [← List.append_assoc, ← hw2]]
  rw [h1, h2, hcg]

/-- Witness for C10: concrete messages differing in a trailing blank. -/
theorem C10_dedup_unstripped_witness :
    ((({ newRoot 3 false with idups := true }).logf 'M' 2 ('h' :: 'i' :: ' ' ::[])
        (t0At 0)).2.isSome = true) ∧
    (((({ newRoot 3 false with idups := true }).logf 'M' 2 ('h' :: 'i' :: ' ' ::[])
        (t0At 0)).1.logf 'M' 2 ('h' :: 'i' ::[]) (t0At 500)).2.isSome = true) ∧
    (({ newRoot 3 false with idups := true }).logf 'M' 2 ('h' :: 'i' :: ' ' ::[])
        (t0At 0)).2 =
      ((({ newRoot 3 false with idups := true }).logf 'M' 2 ('h' :: 'i' :: ' ' ::[])
        (t0At 0)).1.logf 'M' 2 ('h' :: 'i' ::[]) (t0At 500)).2 := by
  exact C10_dedup_unstripped { newRoot 3 false with idups := true } 'M' 2
    ('h' :: 'i' :: ' ' ::[]) ('h' :: 'i' ::[]) (t0At 0) (t0At 500) (by decide) (by decide)
    (by decide) (by decide) (by decide) (by decide)

/-- C3, evaluated at the failing input: the grandchild
`New(wr).Sub('A').Sub('B')` carries app tag `B`, yet its Notice emission
is written with the intermediate child's tag `A` — `logf`'s delegation
passes `l.app` instead of the incoming `app` argument, so the emitting
node's own tag is lost beyond depth one (a depth-one child works, last
conjunct). -/
theorem C3_grandchild_tag :
    c3Grandchild.appTag = 'B' ∧
    (c3Grandchild.noticef ['x'] t0).2 =
      some ("100:A 02 Jan 15:04:05.006 * x\n".toList) ∧
    (((Logger.root (newRoot 100 false)).sub 'A').noticef ['x'] t0).2 =
      some ("100:A 02 Jan 15:04:05.006 * x\n".toList) := by decide

lemma iwrite_eq_root (l : Logger) (sink : GoStr → Nat × Option GoStr) (bytes : GoStr)
    (app : Char) (t : GoTime) :
    l.iwrite sink bytes app t = (Logger.root l.rootState).iwrite sink bytes app t := by
  induction l with
  | root st => rfl
  | child a p ih => simpa [Logger.iwrite, Logger.rootState] using ih

/-- C5 counterexample: with a filter installed, `Write` does not
propagate the sink's result: the sink answers `(0, boom)` for the
written line, yet `Write` returns `(len(p), nil)`. -/
theorem C5_counterexample :
    (c5Filtered.write c5Sink ("ts [W] ouch".toList) t0).2.2 = (11, none) ∧
    c5Sink ("ts [W] ouch".toList) = (0, some ("boom".toList)) := by decide

/-- C5 (amended): with no filter installed `Write(p)` forwards the bytes
unmodified to the sink and propagates the sink's byte count and error to
its caller; with a filter installed `Write(p)` returns `(len(p), nil)`
and the sink's write error is not propagated. -/
theorem C5_amended :
    (∀ (l : Logger) (sink : GoStr → Nat × Option GoStr) (p : GoStr) (t : GoTime),
      l.rootState.filter = none →
      l.write sink p t = (l.rootState, [p], sink p)) ∧
    (∀ (l : Logger) (sink : GoStr → Nat × Option GoStr) (p : GoStr) (t : GoTime)
      (f : GoStr → Bool → GoStr × Char × Int),
      l.rootState.filter = some f →
      (l.write sink p t).2.2 = (p.length, none)) := by
  constructor
  · intro l sink p t hf
    rw [Logger.write, iwrite_eq_root]
    simp [Logger.iwrite, hf]
  · intro l sink p t f hf
    rw [Logger.write, iwrite_eq_root]
    simp [Logger.iwrite, hf]

/-- Witness for C5 (amended): a child in bypass mode propagates the
failing sink's answer; the filtered root swallows it. -/
theorem C5_amended_witness :
    ((Logger.root (newRoot 100 false)).sub 'A').write c5Sink ("ab".toList) t0 =
      (((Logger.root (newRoot 100 false)).sub 'A').rootState, ["ab".toList],
        c5Sink ("ab".toList)) ∧
    (c5Filtered.write c5Sink ("ab".toList) t0).2.2 = (2, none) := by
  constructor
  · exact C5_amended.1 ((Logger.root (newRoot 100 false)).sub 'A') c5Sink ("ab".toList) t0 rfl
  · exact C5_amended.2 c5Filtered c5Sink ("ab".toList) t0 hashicorpRaftFilter rfl

/-- C6 counterexample: for the structureless line `hello world` the
filter neither returns the full raw text (the leading token is still
stripped) nor Verbose: it returns `world` at severity 0 = Debug. -/
theorem C6_counterexample :
    (hashicorpRaftFilter ("hello world".toList) false).1 ≠ "hello world".toList ∧
    (hashicorpRaftFilter ("hello world".toList) false).2.2 ≠ logLevelVerbose ∧
    hashicorpRaftFilter ("hello world".toList) false =
      ("world".toList, Char.ofNat 0, logLevelDebug) := by decide

/-- C6 (amended): on a line without the expected bracketed severity tag
after its first token, the filter degrades without failing, but to the
text after the first space (the full raw text only when there is no
space) and to severity Debug — the zero value — not Verbose; Verbose is
the inside-bracket default only. -/
theorem C6_amended :
    ∀ line : GoStr,
      (indexByte ']' (afterToken line) = none ∨ (afterToken line).head? ≠ some '[') →
      hashicorpRaftFilter line false = (afterToken line, Char.ofNat 0, logLevelDebug) := by
  intro line h
  unfold hashicorpRaftFilter
  cases hidx : indexByte ']' (afterToken line) with
  | none =>
    cases hmsg : afterToken line with
    | nil => simp [hmsg ▸ hidx, hmsg, logLevelDebug]
    | cons c cs => simp [hmsg ▸ hidx, hmsg, logLevelDebug]
  | some i =>
    rcases h with h | h
    · rw [hidx] at h
      exact absurd h (by simp)
    · cases hmsg : afterToken line with
      | nil => simp [hmsg ▸ hidx, hmsg, logLevelDebug]
      | cons c cs =>
        rw [hmsg] at h
        have hc : c ≠ '[' := by simpa using h
        cases cs with
        | nil => simp [hmsg ▸ hidx, hmsg, logLevelDebug]
        | cons c2 cs2 => simp [hmsg ▸ hidx, hmsg, hc, logLevelDebug]

/-- Witness for C6 (amended) on a line with no space and no bracket. -/
theorem C6_amended_witness :
    hashicorpRaftFilter ("leaderlost".toList) false =
      (afterToken ("leaderlost".toList), Char.ofNat 0, logLevelDebug) := by
  exact C6_amended ("leaderlost".toList) (by decide)

lemma indexByte_not_mem {c : Char} {xs : GoStr} (h : c ∉ xs) (ys : GoStr) :
    indexByte c (xs ++ c :: ys) = some xs.length := by
  induction xs with
  | nil => simp [indexByte]
  | cons x xt ih =>
    have hx : x ≠ c := by rintro rfl; exact h (by simp)
    have ihx := ih (fun hm => h (by simp [hm]))
    simp [indexByte, hx, ihx]

lemma afterToken_sep {token : GoStr} (rest : GoStr) (h : ' ' ∉ token) :
    afterToken (token ++ ' ' :: rest) = rest := by
  unfold afterToken
  rw [indexByte_not_mem h rest]
  rw [show token ++ ' ' :: rest = (token ++ [' ']) ++ rest by simp]
  have hd := List.drop_left (token ++ [' ']) rest
  simp only [List.length_append, List.length_cons, List.length_nil] at hd
  exact hd

/-- C7: for a well-formed line — a space-free leading token, a space, a
bracketed letter among D, V, I, W, E, and the remainder — the filter
with terminal flag false returns the remainder stripped of the token,
the bracket tag and the spaces following it, with the letters mapped to
Debug, Verbose, Notice, Warning, Warning respectively; in particular
`2024-01-01T00:00:00 [W] leader lost contact` yields Warning and
`leader lost contact`. -/
theorem C7_raft_filter :
    (∀ (token rest : GoStr) (c : Char),
      ' ' ∉ token → (c = 'D' ∨ c = 'V' ∨ c = 'I' ∨ c = 'W' ∨ c = 'E') →
      hashicorpRaftFilter (token ++ ' ' :: ('[' :: c :: ']' :: rest)) false =
        (rest.dropWhile (· = ' '), Char.ofNat 0, letterLevel c)) ∧
    letterLevel 'D' = logLevelDebug ∧ letterLevel 'V' = logLevelVerbose ∧
    letterLevel 'I' = logLevelNotice ∧ letterLevel 'W' = logLevelWarning ∧
    letterLevel 'E' = logLevelWarning ∧
    hashicorpRaftFilter ("2024-01-01T00:00:00 [W] leader lost contact".toList) false =
      ("leader lost contact".toList, Char.ofNat 0, logLevelWarning) := by
  refine ⟨?_, by decide, by decide, by decide, by decide, by decide, by decide⟩
  intro token rest c htok hc
  unfold hashicorpRaftFilter
  rw [afterToken_sep ('[' :: c :: ']' :: rest) htok]
  have hcne : c ≠ ']' := by rcases hc with rfl | rfl | rfl | rfl | rfl <;> decide
  have hidx : indexByte ']' ('[' :: c :: ']' :: rest) = some 2 := by
    simp [indexByte, hcne]
  simp [hidx]

/-- Witness for C7 on the example line. -/
theorem C7_raft_filter_witness :
    hashicorpRaftFilter ("2024-01-01T00:00:00".toList ++ ' ' ::
        ('[' :: 'W' :: ']' :: " leader lost contact".toList)) false =
      ((" leader lost contact".toList).dropWhile (· = ' '), Char.ofNat 0,
        letterLevel 'W') := by
  exact C7_raft_filter.1 ("2024-01-01T00:00:00".toList) (" leader lost contact".toList)
    'W' (by decide) (by decide)

/-- C8 counterexample: on a read error the `GoLogger` relay loop does
not end — its body `continue`s, yielding a skip step, not a stop. -/
theorem C8_counterexample :
    goLoggerStep (Except.error ("io: read/write on closed pipe".toList)) =
      RelayAction.skip ∧
    RelayAction.skip ≠ RelayAction.stop := by decide

/-- C8 (amended): the colorizing relay inside `RedisLogColorizer` ends
its loop silently on every read error, with no retry and no propagation;
the `GoLogger` relay instead skips the failed iteration and retries —
it never ends its loop on a read error, and emits nothing for it. -/
theorem C8_amended :
    (∀ e : GoStr, redisLogColorizerStep (Except.error e) = RelayAction.stop) ∧
    (∀ e : GoStr, goLoggerStep (Except.error e) = RelayAction.skip) ∧
    (∀ (e line : GoStr), goLoggerStep (Except.error e) ≠ RelayAction.emit line) ∧
    (∀ e : GoStr, goLoggerStep (Except.error e) ≠ RelayAction.stop) := by
  refine ⟨fun e => rfl, fun e => rfl, fun e line => ?_, fun e => ?_⟩
  · simp [goLoggerStep]
  · simp [goLoggerStep]

end Redlog
